import Mathlib

/-!
# mav_trajectory_generation: polynomial.cpp

A shallow embedding of `src/mav_trajectory_generation/src/polynomial.cpp`:

* `computeBaseCoefficients`, the derivative coefficient table, with its two
  nested `for` loops and bounds-checked matrix accesses;
* `findMinMax`, the extremum finder over supplied roots (Operation A);
* `findMinMaxSolve`, the overload that first calls the root solver
  (Operation B).

`double` values are idealised as elements of a linearly ordered commutative
ring `α` with exact arithmetic (`ℤ` and `ℚ` for evaluation, `ℝ` for the
analytic statements).  `std::numeric_limits<double>::max()` and `lowest()`
keep their finite values `±(2^53 - 1) * 2^971`.  NaN, infinities and rounding
are outside the embedding.  Derivative orders and the table size are natural
numbers; the loop counters and the index arithmetic of
`computeBaseCoefficients` are integers, as in the source.  Output pointers are
modelled by passing and returning the pair of values behind them.

`Polynomial::evaluate`, `Polynomial::getCoefficients` and the constant `kMaxN`
are declared in `polynomial.h`, which is not part of the sources: `findMinMax`
takes them as parameters, and `evaluate` and `getCoefficients` below follow
the specification's description of them.
-/

namespace mav_trajectory_generation

/-! ## Scalars -/

/-- The value of `std::numeric_limits<double>::max()`: the largest finite
double, `(2^53 - 1) * 2^971`. -/
def numericLimitsMax (α : Type) [LinearOrderedCommRing α] : α :=
  (2 ^ 53 - 1) * 2 ^ 971

/-- The value of `std::numeric_limits<double>::lowest()`: the negation of the
largest finite double. -/
def numericLimitsLowest (α : Type) [LinearOrderedCommRing α] : α :=
  -numericLimitsMax α

/-- The function `std::min(a, b)`: `(b < a) ? b : a`. -/
def stdMin {α : Type} [LinearOrderedCommRing α] (a b : α) : α :=
  if b < a then b else a

/-- The function `std::max(a, b)`: `(a < b) ? b : a`. -/
def stdMax {α : Type} [LinearOrderedCommRing α] (a b : α) : α :=
  if a < b then b else a

/-- An entry of `Eigen::VectorXcd`: a `std::complex<double>` with its real and
imaginary parts. -/
structure Complexd (α : Type) where
  real : α
  imag : α

/-- The two doubles behind the output pointers `min` and `max`. -/
structure MinMax (α : Type) where
  min : α
  max : α

/-! ## Extremum finder -/

/-- One iteration of the loop over `roots_of_derivative` in `findMinMax`
(lines 41-53): skip the root when its imaginary part is not `0.0` or when its
real part is outside `[t_1, t_2]`, otherwise fold the evaluation at its real
part into `*min` and `*max`. -/
def findMinMaxRootStep {α : Type} [LinearOrderedCommRing α]
    (evaluate : α → Nat → α) (t_1 t_2 : α) (derivative : Nat)
    (s : MinMax α) (root : Complexd α) : MinMax α :=
  if root.imag ≠ 0 then s
  else if root.real < t_1 ∨ root.real > t_2 then s
  else
    let candidate := evaluate root.real derivative
    { min := stdMin s.min candidate, max := stdMax s.max candidate }

/-- The roots overload `Polynomial::findMinMax(t_1, t_2, derivative,
roots_of_derivative, min, max)` (lines 27-63, Operation A).  The member
function `evaluate` of the polynomial is a parameter.  The result is the
returned `bool` with the values stored through `min` and `max`; the values the
caller had there are overwritten before any read, so they are no input. -/
def findMinMax {α : Type} [LinearOrderedCommRing α]
    (evaluate : α → Nat → α) (t_1 t_2 : α) (derivative : Nat)
    (roots_of_derivative : List (Complexd α)) : Bool × MinMax α :=
  -- Make sure user input is correct.
  let t : α × α := if t_1 > t_2 then (t_2, t_1) else (t_1, t_2)
  let t_1 := t.1
  let t_2 := t.2
  -- Evaluate polynomial at critical points.
  let s : MinMax α := { min := numericLimitsMax α, max := numericLimitsLowest α }
  let s := roots_of_derivative.foldl (findMinMaxRootStep evaluate t_1 t_2 derivative) s
  -- Evaluate interval end points:
  let candidate_t_1 := evaluate t_1 derivative
  let candidate_t_2 := evaluate t_2 derivative
  let s : MinMax α := { s with min := stdMin s.min candidate_t_1 }
  let s : MinMax α := { s with min := stdMin s.min candidate_t_2 }
  let s : MinMax α := { s with max := stdMax s.max candidate_t_1 }
  let s : MinMax α := { s with max := stdMax s.max candidate_t_2 }
  (true, s)

/-- The root-finding overload `Polynomial::findMinMax(t_1, t_2, derivative,
min, max)` (lines 65-74, Operation B).  The member function `getCoefficients`
and the external solver `findRootsJenkinsTraub` (its `bool` result with the
roots it stored) are parameters.  `out` holds the caller's values behind `min`
and `max` before the call. -/
def findMinMaxSolve {α : Type} [LinearOrderedCommRing α]
    (getCoefficients : Nat → List α)
    (findRootsJenkinsTraub : List α → Bool × List (Complexd α))
    (evaluate : α → Nat → α) (t_1 t_2 : α) (derivative : Nat)
    (out : MinMax α) : Bool × MinMax α :=
  let coeffs := getCoefficients (derivative + 1)
  let solved := findRootsJenkinsTraub coeffs
  let roots_of_derivative := solved.2
  if !solved.1 then (false, out)
  else findMinMax evaluate t_1 t_2 derivative roots_of_derivative

/-! ## Derivative coefficient table -/

/-- A dynamically sized matrix of doubles (`Eigen::MatrixXd`): its dimensions
and its coefficients. -/
structure MatrixXd (α : Type) where
  rows : Nat
  cols : Nat
  coeff : Nat → Nat → α

namespace MatrixXd

/-- The index check of every coefficient access: `0 <= r < rows` and
`0 <= c < cols`. -/
def inRange {α : Type} (m : MatrixXd α) (r c : Int) : Prop :=
  0 ≤ r ∧ r < m.rows ∧ 0 ≤ c ∧ c < m.cols

instance {α : Type} (m : MatrixXd α) (r c : Int) : Decidable (m.inRange r c) := by
  unfold inRange; infer_instance

/-- The matrix `MatrixXd(r, c)` after `setZero()`. -/
def zero {α : Type} [LinearOrderedCommRing α] (r c : Nat) : MatrixXd α :=
  { rows := r, cols := c, coeff := fun _ _ => 0 }

/-- The call `m.row(r).setOnes()`; fails when there is no row `r`. -/
def setRowOnes {α : Type} [LinearOrderedCommRing α] (m : MatrixXd α) (r : Int) :
    Option (MatrixXd α) :=
  if 0 ≤ r ∧ r < m.rows then
    some { m with coeff := fun a b => if a = r.toNat then 1 else m.coeff a b }
  else none

/-- A read `m(r, c)`; fails when an index is out of range. -/
def get {α : Type} (m : MatrixXd α) (r c : Int) : Option α :=
  if m.inRange r c then some (m.coeff r.toNat c.toNat) else none

/-- A write `m(r, c) = v`; fails when an index is out of range. -/
def set {α : Type} (m : MatrixXd α) (r c : Int) (v : α) : Option (MatrixXd α) :=
  if m.inRange r c then
    some { m with coeff := fun a b => if a = r.toNat ∧ b = c.toNat then v else m.coeff a b }
  else none

end MatrixXd

/-- The loop `for (int i = start; ...; i++) body`, run for `count` iterations
from `i = start`; an iteration that fails stops the loop with the failure. -/
def forLoop {σ : Type} (body : Int → σ → Option σ) : Nat → Int → σ → Option σ
  | 0, _, s => some s
  | count + 1, i, s => (body i s).bind (forLoop body count (i + 1))

/-- The loop `for (int i = start; i < stop; i++) body`: it runs
`max (stop - start) 0` iterations. -/
def forRange {σ : Type} (start stop : Int) (body : Int → σ → Option σ) (s : σ) : Option σ :=
  forLoop body (stop - start).toNat start s

/-- The body of the inner loop of `computeBaseCoefficients` (line 86):
`base_coefficients(n, i) = (order - DEG + i) * base_coefficients(n - 1, i)`. -/
def computeBaseCoefficientsInner {α : Type} [LinearOrderedCommRing α]
    (DEG order n : Int) (i : Int) (base_coefficients : MatrixXd α) : Option (MatrixXd α) :=
  (base_coefficients.get (n - 1) i).bind fun prev =>
    base_coefficients.set n i (((order - DEG + i : Int) : α) * prev)

/-- The body of the outer loop of `computeBaseCoefficients` (lines 85-88) on
the state `(base_coefficients, order)`: the inner loop over
`i = DEG - order, ..., N - 1`, then `order--`. -/
def computeBaseCoefficientsOuter {α : Type} [LinearOrderedCommRing α]
    (N : Nat) (DEG : Int) (n : Int) (s : MatrixXd α × Int) : Option (MatrixXd α × Int) :=
  (forRange (DEG - s.2) N (computeBaseCoefficientsInner DEG s.2 n) s.1).bind fun m =>
    some (m, s.2 - 1)

/-- The function `computeBaseCoefficients(N)` (lines 76-91).  The result is
`none` when a matrix access is out of range. -/
def computeBaseCoefficients {α : Type} [LinearOrderedCommRing α] (N : Nat) :
    Option (MatrixXd α) :=
  let base_coefficients : MatrixXd α := MatrixXd.zero N N
  (base_coefficients.setRowOnes 0).bind fun base_coefficients =>
    let DEG : Int := (N : Int) - 1
    let order : Int := DEG
    (forRange 1 N (computeBaseCoefficientsOuter N DEG) (base_coefficients, order)).bind
      fun s => some s.1

/-! ## Coefficient access and evaluation -/

/-- Modelled from the spec: `Polynomial::getCoefficients(derivative)` is
declared in `polynomial.h`, which is not among the sources.  It returns "the
coefficient sequence of the polynomial differentiated `derivative` times,
computed by element-wise scaling of the original coefficients using row
`derivative` of the shared Derivative Coefficient Table, then left-shifting by
`derivative` positions (the lowest `derivative` coefficients vanish)", of
"length N", the freed positions being zero.  `base_coefficients_` is the shared
table and `coefficients_` the coefficients, lowest order first. -/
def getCoefficients {α : Type} [LinearOrderedCommRing α]
    (base_coefficients_ : MatrixXd α) (coefficients_ : List α) (derivative : Nat) : List α :=
  let N := coefficients_.length
  let row : List α := (List.range N).map (base_coefficients_.coeff derivative)
  let scaled : List α := List.zipWith (fun b c => b * c) row coefficients_
  scaled.drop derivative ++ List.replicate (min derivative N) 0

/-- Modelled from the spec: `Polynomial::evaluate(t, derivative)` is declared
in `polynomial.h`, which is not among the sources.  It is to "evaluate the
polynomial (or its derivative) at time `t`", "correct for `derivative` in
`[0, N-1]`, returns 0 for larger orders"; the derivative's coefficients are
those of `getCoefficients`, summed by Horner's rule. -/
def evaluate {α : Type} [LinearOrderedCommRing α]
    (base_coefficients_ : MatrixXd α) (coefficients_ : List α) (t : α) (derivative : Nat) : α :=
  if derivative ≥ coefficients_.length then 0
  else (getCoefficients base_coefficients_ coefficients_ derivative).foldr
    (fun c acc => c + t * acc) 0

/-! ## Specification-side notions -/

/-- The evaluations `findMinMax` folds in its loop over the roots: one for
each root with zero imaginary part and real part in `[lo, hi]`, in order. -/
def rootCandidates {α : Type} [LinearOrderedCommRing α]
    (evaluate : α → Nat → α) (lo hi : α) (derivative : Nat)
    (roots_of_derivative : List (Complexd α)) : List α :=
  (roots_of_derivative.filter
    (fun root => decide (root.imag = 0 ∧ lo ≤ root.real ∧ root.real ≤ hi))).map
    (fun root => evaluate root.real derivative)

/-- The state of the table when the outer loop reaches row `n`: the matrix is
`N x N`, the rows above `n` hold the falling factorials and the rows from `n`
on are still zero. -/
def TableUpTo {α : Type} [LinearOrderedCommRing α] (N n : Nat) (m : MatrixXd α) : Prop :=
  m.rows = N ∧ m.cols = N ∧
    ∀ a b : Nat, a < N → b < N →
      m.coeff a b = if a < n then ((b.descFactorial a : Nat) : α) else 0

/-- The state of the table inside the inner loop of row `n` at column `i`. -/
def TableRow {α : Type} [LinearOrderedCommRing α] (N n : Nat) (i : Int)
    (m : MatrixXd α) : Prop :=
  m.rows = N ∧ m.cols = N ∧
    ∀ a b : Nat, a < N → b < N →
      m.coeff a b =
        if a < n then ((b.descFactorial a : Nat) : α)
        else if a = n ∧ n ≤ b + 1 ∧ (b : Int) < i then ((b.descFactorial n : Nat) : α)
        else 0

/-! # Theorems -/

/-! ## Lemmas on `std::min`, `std::max` and the fold over the roots -/

section Fold

variable {α : Type} [LinearOrderedCommRing α]

theorem stdMin_eq_min (a b : α) : stdMin a b = min a b := by
  unfold stdMin
  split_ifs with h
  · exact (min_eq_right h.le).symm
  · exact (min_eq_left (not_lt.mp h)).symm

theorem stdMax_eq_max (a b : α) : stdMax a b = max a b := by
  unfold stdMax
  split_ifs with h
  · exact (max_eq_right h.le).symm
  · exact (max_eq_left (not_lt.mp h)).symm

/-- The loop over the roots folds exactly the evaluations of `rootCandidates`
into the running minimum and maximum. -/
theorem foldl_findMinMaxRootStep (evaluate : α → Nat → α) (lo hi : α) (derivative : Nat)
    (roots : List (Complexd α)) (s : MinMax α) :
    roots.foldl (findMinMaxRootStep evaluate lo hi derivative) s =
      { min := (rootCandidates evaluate lo hi derivative roots).foldl min s.min,
        max := (rootCandidates evaluate lo hi derivative roots).foldl max s.max } := by
  induction roots generalizing s with
  | nil => rfl
  | cons r rs ih =>
    rw [List.foldl_cons, ih]
    unfold rootCandidates findMinMaxRootStep
    by_cases h1 : r.imag = 0
    · by_cases h2 : r.real < lo ∨ r.real > hi
      · have h3 : ¬ (lo ≤ r.real ∧ r.real ≤ hi) := by
          rintro ⟨h4, h5⟩
          rcases h2 with h2 | h2
          · exact absurd h4 (not_le.mpr h2)
          · exact absurd h5 (not_le.mpr h2)
        simp [h1, h2, h3]
      · have h3 : lo ≤ r.real ∧ r.real ≤ hi := by
          constructor
          · exact not_lt.mp (fun h => h2 (Or.inl h))
          · exact not_lt.mp (fun h => h2 (Or.inr h))
        simp [h1, h2, h3, stdMin_eq_min, stdMax_eq_max]
    · simp [h1]

/-- The interval after the swap of lines 31-35 is `[min t_1 t_2, max t_1 t_2]`. -/
theorem swap_eq_min_max (t_1 t_2 : α) :
    (if t_1 > t_2 then (t_2, t_1) else (t_1, t_2)) = (min t_1 t_2, max t_1 t_2) := by
  split_ifs with h
  · rw [min_eq_right h.le, max_eq_left h.le]
  · rw [min_eq_left (not_lt.mp h), max_eq_right (not_lt.mp h)]

/-- Closed form of Operation A: success, with the minimum and maximum over the
sentinel, the root candidates and the two endpoint evaluations. -/
theorem findMinMax_eq (evaluate : α → Nat → α) (t_1 t_2 : α) (derivative : Nat)
    (roots : List (Complexd α)) :
    findMinMax evaluate t_1 t_2 derivative roots =
      (true,
        { min := min (min ((rootCandidates evaluate (min t_1 t_2) (max t_1 t_2)
              derivative roots).foldl min (numericLimitsMax α))
              (evaluate (min t_1 t_2) derivative)) (evaluate (max t_1 t_2) derivative),
          max := max (max ((rootCandidates evaluate (min t_1 t_2) (max t_1 t_2)
              derivative roots).foldl max (numericLimitsLowest α))
              (evaluate (min t_1 t_2) derivative)) (evaluate (max t_1 t_2) derivative) }) := by
  unfold findMinMax
  simp only [swap_eq_min_max, foldl_findMinMaxRootStep, stdMin_eq_min, stdMax_eq_max]

end Fold

/-! ## The loops of `computeBaseCoefficients` -/

/-- Invariant rule for `forLoop`: an invariant that holds at the start and is
carried by every iteration, none of which fails, holds at the end, and the
loop returns. -/
theorem forLoop_invariant {σ : Type} (body : Int → σ → Option σ) (P : Int → σ → Prop) :
    ∀ (count : Nat) (i : Int) (s : σ), P i s →
      (∀ j t, i ≤ j → j < i + count → P j t → ∃ t', body j t = some t' ∧ P (j + 1) t') →
      ∃ s', forLoop body count i s = some s' ∧ P (i + count) s' := by
  intro count
  induction count with
  | zero =>
    intro i s h0 _
    exact ⟨s, rfl, by simpa using h0⟩
  | succ k ih =>
    intro i s h0 hstep
    obtain ⟨t, ht, hPt⟩ := hstep i s (le_refl i) (by push_cast; omega) h0
    obtain ⟨s', hs', hP'⟩ := ih (i + 1) t hPt (fun j u h1 h2 hu =>
      hstep j u (by omega) (by push_cast; omega) hu)
    refine ⟨s', ?_, ?_⟩
    · simp only [forLoop, ht, Option.some_bind]
      exact hs'
    · have : i + ((k + 1 : Nat) : Int) = i + 1 + (k : Int) := by push_cast; ring
      rw [this]
      exact hP'

section Table

variable {α : Type} [LinearOrderedCommRing α]

theorem computeBaseCoefficientsInner_step (N n : Nat) (hn1 : 1 ≤ n) (hnN : n < N)
    (i : Int) (hi1 : (n : Int) - 1 ≤ i) (hi2 : i < N) (m : MatrixXd α)
    (hm : TableRow N n i m) :
    ∃ m', computeBaseCoefficientsInner ((N : Int) - 1) ((N : Int) - n) n i m = some m' ∧
      TableRow N n (i + 1) m' := by
  obtain ⟨hr, hc, hcoeff⟩ := hm
  obtain ⟨k, rfl⟩ := Int.eq_ofNat_of_zero_le (show (0 : Int) ≤ i by omega)
  have hk1 : n ≤ k + 1 := by omega
  have hk2 : k < N := by omega
  have hget : m.get ((n : Int) - 1) (k : Int) = some (((k.descFactorial (n - 1) : Nat) : α)) := by
    unfold MatrixXd.get MatrixXd.inRange
    rw [if_pos (by rw [hr, hc]; omega)]
    have h1 : ((n : Int) - 1).toNat = n - 1 := by omega
    rw [h1, Int.toNat_ofNat, hcoeff (n - 1) k (by omega) hk2, if_pos (by omega)]
  have hset : m.inRange (n : Int) (k : Int) := by
    unfold MatrixXd.inRange
    rw [hr, hc]; omega
  unfold computeBaseCoefficientsInner
  rw [hget, Option.some_bind]
  unfold MatrixXd.set
  rw [if_pos hset]
  refine ⟨_, rfl, ?_⟩
  · refine ⟨hr, hc, ?_⟩
    intro a b ha hb
    simp only [Int.toNat_ofNat]
    by_cases hab : a = n ∧ b = k
    · obtain ⟨rfl, rfl⟩ := hab
      rw [if_pos ⟨rfl, rfl⟩, if_neg (lt_irrefl a), if_pos ⟨rfl, hk1, by omega⟩]
      obtain ⟨p, rfl⟩ : ∃ p, a = p + 1 := ⟨a - 1, by omega⟩
      rw [Nat.descFactorial_succ]
      have h2 : ((N : Int) - ((p + 1 : Nat) : Int) - ((N : Int) - 1) + (b : Int)) = ((b - p : Nat) : Int) := by
        omega
      rw [h2]
      simp
    · rw [if_neg hab, hcoeff a b ha hb]
      by_cases h1 : a < n
      · rw [if_pos h1, if_pos h1]
      · rw [if_neg h1, if_neg h1]
        by_cases h2 : a = n ∧ n ≤ b + 1 ∧ (b : Int) < (k : Int)
        · rw [if_pos h2, if_pos ⟨h2.1, h2.2.1, by omega⟩]
        · rw [if_neg h2, if_neg]
          rintro ⟨h3, h4, h5⟩
          apply h2
          refine ⟨h3, h4, ?_⟩
          have : b ≠ k := fun h => hab ⟨h3, h⟩
          omega

theorem computeBaseCoefficientsOuter_step (N n : Nat) (hn1 : 1 ≤ n) (hnN : n < N)
    (m : MatrixXd α) (hm : TableUpTo N n m) :
    ∃ m', computeBaseCoefficientsOuter N ((N : Int) - 1) n (m, (N : Int) - n)
        = some (m', (N : Int) - (n + 1 : Nat)) ∧ TableUpTo N (n + 1) m' := by
  obtain ⟨hr, hc, hcoeff⟩ := hm
  have hstart : TableRow N n ((N : Int) - 1 - ((N : Int) - n)) m := by
    refine ⟨hr, hc, ?_⟩
    intro a b ha hb
    rw [hcoeff a b ha hb]
    by_cases h1 : a < n
    · rw [if_pos h1, if_pos h1]
    · rw [if_neg h1, if_neg h1, if_neg]
      rintro ⟨_, h4, h5⟩
      omega
  obtain ⟨m', hm', hP⟩ := forLoop_invariant
    (computeBaseCoefficientsInner ((N : Int) - 1) ((N : Int) - n) (n : Int))
    (TableRow N n) ((N : Int) - ((N : Int) - 1 - ((N : Int) - n))).toNat
    ((N : Int) - 1 - ((N : Int) - n)) m hstart
    (fun j t h1 h2 ht =>
      computeBaseCoefficientsInner_step N n hn1 hnN j (by omega) (by omega) t ht)
  refine ⟨m', ?_, ?_⟩
  · unfold computeBaseCoefficientsOuter forRange
    simp only [hm', Option.some_bind]
    congr 2
    push_cast; ring
  · obtain ⟨hr', hc', hcoeff'⟩ := hP
    refine ⟨hr', hc', ?_⟩
    intro a b ha hb
    rw [hcoeff' a b ha hb]
    by_cases h1 : a < n
    · rw [if_pos h1, if_pos (by omega)]
    · rw [if_neg h1]
      by_cases h2 : a = n
      · subst h2
        rw [if_pos (show a < a + 1 by omega)]
        by_cases h3 : a ≤ b + 1
        · rw [if_pos ⟨rfl, h3, by omega⟩]
        · rw [if_neg (fun h => h3 h.2.1), Nat.descFactorial_of_lt (by omega)]
          simp
      · rw [if_neg (fun h => h2 h.1), if_neg (by omega)]

/-- The table is computed without a failing access, it is `N x N`, and its
entry `(n, i)` is the falling factorial `i (i - 1) ... (i - n + 1)`. -/
theorem computeBaseCoefficients_spec (N : Nat) (hN : 1 ≤ N) :
    ∃ m : MatrixXd α, computeBaseCoefficients N = some m ∧ m.rows = N ∧ m.cols = N ∧
      ∀ n i : Nat, n < N → i < N → m.coeff n i = ((i.descFactorial n : Nat) : α) := by
  have hinit : TableUpTo N 1
      ({ rows := N, cols := N, coeff := fun a _ => if a = (0 : Int).toNat then 1 else 0 } :
        MatrixXd α) := by
    refine ⟨rfl, rfl, ?_⟩
    intro a b _ _
    by_cases h : a = 0
    · subst h; simp
    · have h2 : ¬ a < 1 := by omega
      simp [h, h2]
  obtain ⟨s, hs, hP⟩ := forLoop_invariant
    (@computeBaseCoefficientsOuter α _ N ((N : Int) - 1))
    (fun j s => ∃ n : Nat, j = n ∧ s.2 = (N : Int) - j ∧ TableUpTo N n s.1)
    ((N : Int) - 1).toNat 1 (_, (N : Int) - 1) ⟨1, rfl, rfl, hinit⟩
    (by
      rintro j ⟨m, o⟩ h1 h2 ⟨n, rfl, ho, hm⟩
      simp only at ho hm
      subst ho
      obtain ⟨m', hm', hT⟩ := computeBaseCoefficientsOuter_step N n (by omega) (by omega) m hm
      exact ⟨_, hm', n + 1, by push_cast; ring, by push_cast; ring, hT⟩)
  obtain ⟨n, hn, _, hn2, hn3, hT⟩ := hP
  have hnN : n = N := by omega
  subst hnN
  refine ⟨s.1, ?_, hn2, hn3, ?_⟩
  · have h0 : (0 : Int) ≤ 0 ∧ (0 : Int) < (n : Int) := by omega
    simp only [computeBaseCoefficients, MatrixXd.setRowOnes, MatrixXd.zero, h0, and_self,
      if_true, Option.some_bind, forRange]
    rw [hs]
    rfl
  · intro a b ha hb
    rw [hT a b ha hb, if_pos ha]

end Table

/-- The table of size 4 over the integers, evaluated: the rows are
`1 1 1 1`, `0 1 2 3`, `0 0 2 6` and `0 0 0 6`. -/
theorem computeBaseCoefficients_four :
    (@computeBaseCoefficients ℤ _ 4).map
        (fun m => (m.rows, m.cols,
          (List.range 4).map fun n => (List.range 4).map (m.coeff n)))
      = some (4, 4, [[1, 1, 1, 1], [0, 1, 2, 3], [0, 0, 2, 6], [0, 0, 0, 6]]) := by
  decide

section Coefficients

variable {α : Type} [LinearOrderedCommRing α]

theorem getCoefficients_length (m : MatrixXd α) (c : List α) (d : Nat) :
    (getCoefficients m c d).length = c.length := by
  unfold getCoefficients
  simp only [List.length_append, List.length_drop, List.length_zipWith, List.length_map,
    List.length_range, List.length_replicate, min_self]
  omega

/-- Entry `k` of `getCoefficients`: the coefficient at `k + derivative` scaled
by the table entry `(derivative, k + derivative)`, and zero past the end. -/
theorem getCoefficients_getD (m : MatrixXd α) (c : List α) (d k : Nat) :
    (getCoefficients m c d).getD k 0 =
      if k + d < c.length then m.coeff d (k + d) * c.getD (k + d) 0 else 0 := by
  unfold getCoefficients
  simp only [List.getD_eq_getElem?_getD]
  by_cases h : k + d < c.length
  · rw [if_pos h, List.getElem?_append_left (by
      simp only [List.length_drop, List.length_zipWith, List.length_map, List.length_range,
        min_self]; omega)]
    rw [List.getElem?_drop, List.getElem?_zipWith, List.getElem?_map,
      List.getElem?_range (by omega), List.getElem?_eq_getElem (by omega)]
    simp [Nat.add_comm d k, List.getElem?_eq_getElem h]
  · rw [if_neg h]
    by_cases h2 : k < c.length
    · rw [List.getElem?_append_right (by
        simp only [List.length_drop, List.length_zipWith, List.length_map, List.length_range,
          min_self]; omega)]
      rw [List.getElem?_replicate_of_lt (by
        simp only [List.length_drop, List.length_zipWith, List.length_map, List.length_range,
          min_self]; omega)]
      rfl
    · rw [List.getElem?_eq_none (by
        simp only [List.length_append, List.length_drop, List.length_zipWith, List.length_map,
          List.length_range, List.length_replicate, min_self]; omega)]
      rfl

end Coefficients

section Extrema

variable {α : Type} [LinearOrderedCommRing α]

theorem numericLimitsMax_pos : (0 : α) < numericLimitsMax α := by
  unfold numericLimitsMax
  have h1 : (1 : α) < 2 ^ 53 := by norm_num
  have h2 : (0 : α) < 2 ^ 971 := by positivity
  exact mul_pos (by linarith) h2

theorem numericLimitsLowest_neg : numericLimitsLowest α < 0 := by
  unfold numericLimitsLowest
  exact neg_neg_of_pos numericLimitsMax_pos

/-- Every root candidate is the evaluation at the real part of a supplied
root that has zero imaginary part and lies in `[lo, hi]`. -/
theorem mem_rootCandidates (evaluate : α → Nat → α) (lo hi : α) (derivative : Nat)
    (roots : List (Complexd α)) (x : α) :
    x ∈ rootCandidates evaluate lo hi derivative roots ↔
      ∃ r ∈ roots, (r.imag = 0 ∧ lo ≤ r.real ∧ r.real ≤ hi) ∧
        evaluate r.real derivative = x := by
  unfold rootCandidates
  simp only [List.mem_map, List.mem_filter, decide_eq_true_eq]
  constructor
  · rintro ⟨r, ⟨h1, h2⟩, h3⟩
    exact ⟨r, h1, h2, h3⟩
  · rintro ⟨r, h1, h2, h3⟩
    exact ⟨r, ⟨h1, h2⟩, h3⟩

theorem findMinMax_min_le_endpoint (evaluate : α → Nat → α) (t_1 t_2 : α) (derivative : Nat)
    (roots : List (Complexd α)) :
    (findMinMax evaluate t_1 t_2 derivative roots).2.min
      ≤ evaluate (max t_1 t_2) derivative := by
  rw [findMinMax_eq]
  exact min_le_right _ _

theorem findMinMax_endpoint_le_max (evaluate : α → Nat → α) (t_1 t_2 : α) (derivative : Nat)
    (roots : List (Complexd α)) :
    evaluate (max t_1 t_2) derivative
      ≤ (findMinMax evaluate t_1 t_2 derivative roots).2.max := by
  rw [findMinMax_eq]
  exact le_max_right _ _

end Extrema

/-! ## The claims -/

/-- C3: Operation B returns failure if and only if the root solver reports
failure on `getCoefficients(derivative + 1)`; there is no other failure path,
whatever `t_1`, `t_2`, `derivative`, the polynomial and the caller's outputs. -/
theorem findMinMaxSolve_fails_iff {α : Type} [LinearOrderedCommRing α]
    (getCoefficients : Nat → List α)
    (findRootsJenkinsTraub : List α → Bool × List (Complexd α))
    (evaluate : α → Nat → α) (t_1 t_2 : α) (derivative : Nat) (out : MinMax α) :
    (findMinMaxSolve getCoefficients findRootsJenkinsTraub evaluate t_1 t_2 derivative out).1
        = false ↔
      (findRootsJenkinsTraub (getCoefficients (derivative + 1))).1 = false := by
  unfold findMinMaxSolve
  by_cases h : (findRootsJenkinsTraub (getCoefficients (derivative + 1))).1 = true
  · simp [h, findMinMax_eq]
  · have h2 : (findRootsJenkinsTraub (getCoefficients (derivative + 1))).1 = false := by
      simpa using h
    simp [h2]

/-- C4: when the root solver fails, Operation B returns false and the values
behind `min` and `max` are those the caller had before the call. -/
theorem findMinMaxSolve_failure_keeps_output {α : Type} [LinearOrderedCommRing α]
    (getCoefficients : Nat → List α)
    (findRootsJenkinsTraub : List α → Bool × List (Complexd α))
    (evaluate : α → Nat → α) (t_1 t_2 : α) (derivative : Nat) (out : MinMax α)
    (hfail : (findRootsJenkinsTraub (getCoefficients (derivative + 1))).1 = false) :
    findMinMaxSolve getCoefficients findRootsJenkinsTraub evaluate t_1 t_2 derivative out
      = (false, out) := by
  unfold findMinMaxSolve
  simp [hfail]

/-- Witness of C4: a solver that always fails, a caller holding `min = 7` and
`max = -7`. -/
theorem findMinMaxSolve_failure_keeps_output_witness :
    ((fun _ : List ℤ => (false, [Complexd.mk (1 : ℤ) 0])) [1, 0]).1 = false ∧
    findMinMaxSolve (fun _ => [1, 0]) (fun _ => (false, [Complexd.mk (1 : ℤ) 0]))
        (fun t _ => t) (2 : ℤ) 5 0 (MinMax.mk 7 (-7)) = (false, MinMax.mk 7 (-7)) :=
  ⟨rfl, findMinMaxSolve_failure_keeps_output (fun _ => [1, 0])
    (fun _ => (false, [Complexd.mk (1 : ℤ) 0])) (fun t _ => t) 2 5 0 (MinMax.mk 7 (-7)) rfl⟩

/-- C5: when the root solver succeeds with the root sequence `R` on
`getCoefficients(derivative + 1)`, Operation B returns exactly what Operation A
returns for `(t_1, t_2, derivative, R)`: the same flag, `min` and `max`. -/
theorem findMinMaxSolve_eq_findMinMax {α : Type} [LinearOrderedCommRing α]
    (getCoefficients : Nat → List α)
    (findRootsJenkinsTraub : List α → Bool × List (Complexd α))
    (evaluate : α → Nat → α) (t_1 t_2 : α) (derivative : Nat) (out : MinMax α)
    (R : List (Complexd α))
    (hsolved : findRootsJenkinsTraub (getCoefficients (derivative + 1)) = (true, R)) :
    findMinMaxSolve getCoefficients findRootsJenkinsTraub evaluate t_1 t_2 derivative out
      = findMinMax evaluate t_1 t_2 derivative R := by
  unfold findMinMaxSolve
  simp [hsolved]

/-- C6: interval-order invariance.  Operation A called with `(t_1, t_2)`
returns the same flag, `min` and `max` as when called with `(t_2, t_1)`, and it
reports success in either order, so `t_1 > t_2` is never an error. -/
theorem findMinMax_interval_order_invariant {α : Type} [LinearOrderedCommRing α]
    (evaluate : α → Nat → α) (t_1 t_2 : α) (derivative : Nat)
    (roots_of_derivative : List (Complexd α)) :
    findMinMax evaluate t_1 t_2 derivative roots_of_derivative
        = findMinMax evaluate t_2 t_1 derivative roots_of_derivative ∧
      (findMinMax evaluate t_1 t_2 derivative roots_of_derivative).1 = true := by
  constructor
  · rw [findMinMax_eq, findMinMax_eq, min_comm t_1 t_2, max_comm t_1 t_2]
  · rw [findMinMax_eq]

/-- C7: the `min` and `max` stored by Operation A satisfy `min <= max` for
every polynomial, interval, derivative order and root sequence, and so do those
of Operation B whenever it succeeds. -/
theorem findMinMax_min_le_max {α : Type} [LinearOrderedCommRing α]
    (getCoefficients : Nat → List α)
    (findRootsJenkinsTraub : List α → Bool × List (Complexd α))
    (evaluate : α → Nat → α) (t_1 t_2 : α) (derivative : Nat)
    (roots_of_derivative : List (Complexd α)) (out : MinMax α) :
    (findMinMax evaluate t_1 t_2 derivative roots_of_derivative).2.min
        ≤ (findMinMax evaluate t_1 t_2 derivative roots_of_derivative).2.max ∧
      ((findMinMaxSolve getCoefficients findRootsJenkinsTraub evaluate t_1 t_2 derivative
          out).1 = true →
        (findMinMaxSolve getCoefficients findRootsJenkinsTraub evaluate t_1 t_2 derivative
          out).2.min
        ≤ (findMinMaxSolve getCoefficients findRootsJenkinsTraub evaluate t_1 t_2 derivative
          out).2.max) := by
  constructor
  · exact le_trans (findMinMax_min_le_endpoint evaluate t_1 t_2 derivative roots_of_derivative)
      (findMinMax_endpoint_le_max evaluate t_1 t_2 derivative roots_of_derivative)
  · unfold findMinMaxSolve
    by_cases h : (findRootsJenkinsTraub (getCoefficients (derivative + 1))).1 = true
    · intro _
      simp only [h, Bool.not_true, Bool.false_eq_true, if_false]
      exact le_trans (findMinMax_min_le_endpoint evaluate t_1 t_2 derivative _)
        (findMinMax_endpoint_le_max evaluate t_1 t_2 derivative _)
    · have h2 : (findRootsJenkinsTraub (getCoefficients (derivative + 1))).1 = false := by
        simpa using h
      simp [h2]

/-- Witness of C7: `p(t) = t` on `[5, 2]` with a solver that succeeds without
roots, the caller holding `min = 7` and `max = -7`. -/
theorem findMinMax_min_le_max_witness :
    (findMinMaxSolve (fun _ => [1, 0]) (fun _ => (true, ([] : List (Complexd ℤ))))
        (fun t _ => t) (5 : ℤ) 2 0 (MinMax.mk 7 (-7))).1 = true ∧
      (findMinMaxSolve (fun _ => [1, 0]) (fun _ => (true, ([] : List (Complexd ℤ))))
        (fun t _ => t) (5 : ℤ) 2 0 (MinMax.mk 7 (-7))).2.min
      ≤ (findMinMaxSolve (fun _ => [1, 0]) (fun _ => (true, ([] : List (Complexd ℤ))))
        (fun t _ => t) (5 : ℤ) 2 0 (MinMax.mk 7 (-7))).2.max :=
  ⟨rfl, (findMinMax_min_le_max (fun _ => [1, 0]) (fun _ => (true, ([] : List (Complexd ℤ))))
    (fun t _ => t) (5 : ℤ) 2 0 [] (MinMax.mk 7 (-7))).2 rfl⟩

/-- C8, as amended: when no supplied root has both zero imaginary part and
real part inside `[lo, hi]`, and the smaller endpoint evaluation is at most
`numeric_limits<double>::max()` and the larger at least `lowest()`, Operation A
succeeds with `min` the smaller and `max` the larger of the two endpoint
evaluations. -/
theorem findMinMax_endpoints_only {α : Type} [LinearOrderedCommRing α]
    (evaluate : α → Nat → α) (t_1 t_2 : α) (derivative : Nat)
    (roots_of_derivative : List (Complexd α))
    (hroots : ∀ r ∈ roots_of_derivative,
      ¬ (r.imag = 0 ∧ min t_1 t_2 ≤ r.real ∧ r.real ≤ max t_1 t_2))
    (hmin : min (evaluate (min t_1 t_2) derivative) (evaluate (max t_1 t_2) derivative)
      ≤ numericLimitsMax α)
    (hmax : numericLimitsLowest α
      ≤ max (evaluate (min t_1 t_2) derivative) (evaluate (max t_1 t_2) derivative)) :
    findMinMax evaluate t_1 t_2 derivative roots_of_derivative =
      (true,
        { min := min (evaluate (min t_1 t_2) derivative) (evaluate (max t_1 t_2) derivative),
          max := max (evaluate (min t_1 t_2) derivative) (evaluate (max t_1 t_2) derivative) })
    := by
  have hnil : rootCandidates evaluate (min t_1 t_2) (max t_1 t_2) derivative
      roots_of_derivative = [] := by
    apply List.eq_nil_iff_forall_not_mem.mpr
    intro x hx
    obtain ⟨r, hr, hin, _⟩ := (mem_rootCandidates _ _ _ _ _ _).mp hx
    exact hroots r hr hin
  rw [findMinMax_eq, hnil]
  simp only [List.foldl_nil, min_assoc, max_assoc]
  rw [min_eq_right hmin, max_eq_right hmax]

/-- C10: for every `N >= 1` the table is an `N x N` matrix whose row 0 holds
only ones, so the coefficients extracted for derivative 0 are the original
coefficients; at `N = 1` it is the `1 x 1` matrix with the entry 1. -/
theorem computeBaseCoefficients_row_zero {α : Type} [LinearOrderedCommRing α]
    (N : Nat) (hN : 1 ≤ N) :
    ∃ m : MatrixXd α, computeBaseCoefficients N = some m ∧ m.rows = N ∧ m.cols = N ∧
      (∀ i : Nat, i < N → m.coeff 0 i = 1 ∧ m.get 0 i = some 1) ∧
      (∀ c : List α, c.length = N → getCoefficients m c 0 = c) := by
  obtain ⟨m, hm, hr, hc, hcoeff⟩ := @computeBaseCoefficients_spec α _ N hN
  have hone : ∀ i : Nat, i < N → m.coeff 0 i = 1 := by
    intro i hi
    rw [hcoeff 0 i (by omega) hi, Nat.descFactorial_zero, Nat.cast_one]
  refine ⟨m, hm, hr, hc, ?_, ?_⟩
  · intro i hi
    refine ⟨hone i hi, ?_⟩
    unfold MatrixXd.get MatrixXd.inRange
    rw [if_pos (by rw [hr, hc]; omega)]
    simp [hone i hi]
  · intro c hcN
    apply List.ext_getElem (getCoefficients_length m c 0)
    intro k h1 h2
    have := getCoefficients_getD m c 0 k
    rw [if_pos (by simpa using h2), List.getD_eq_getElem _ _ h1, Nat.add_zero,
      hone k (by omega), one_mul, List.getD_eq_getElem _ _ h2] at this
    exact this

/-- Witness of C10: `N = 1` yields the `1 x 1` matrix whose only entry is 1. -/
theorem computeBaseCoefficients_row_zero_witness :
    1 ≤ 1 ∧ ∃ m : MatrixXd ℚ, computeBaseCoefficients 1 = some m ∧ m.rows = 1 ∧ m.cols = 1 ∧
      (∀ i : Nat, i < 1 → m.coeff 0 i = 1 ∧ m.get 0 i = some 1) ∧
      (∀ c : List ℚ, c.length = 1 → getCoefficients m c 0 = c) :=
  ⟨le_refl 1, computeBaseCoefficients_row_zero 1 (le_refl 1)⟩

/-- C9: for `p(t) = t^3` (coefficients `[0, 0, 0, 1]`), derivative 1, the
interval `[-1, 1]` and the root sequence `[0]`, the first derivative evaluated
through row 1 of the table is 3, 0, 3 at `t = -1, 0, 1`, and Operation A
returns success with `min = 0` and `max = 3`. -/
theorem findMinMax_cubic_velocity {α : Type} [LinearOrderedCommRing α]
    (kMaxN : Nat) (hk : 4 ≤ kMaxN) :
    ∃ m : MatrixXd α, computeBaseCoefficients kMaxN = some m ∧
      getCoefficients m [0, 0, 0, 1] 1 = [0, 0, 3, 0] ∧
      evaluate m [0, 0, 0, 1] (-1) 1 = 3 ∧
      evaluate m [0, 0, 0, 1] 0 1 = 0 ∧
      evaluate m [0, 0, 0, 1] 1 1 = 3 ∧
      findMinMax (evaluate m [0, 0, 0, 1]) (-1) 1 1 [Complexd.mk 0 0]
        = (true, MinMax.mk 0 3) := by
  obtain ⟨m, hm, _, _, hcoeff⟩ := @computeBaseCoefficients_spec α _ kMaxN (by omega)
  have h0 : m.coeff 1 0 = 0 := by simpa using hcoeff 1 0 (by omega) (by omega)
  have h1 : m.coeff 1 1 = 1 := by simpa using hcoeff 1 1 (by omega) (by omega)
  have h2 : m.coeff 1 2 = 2 := by simpa using hcoeff 1 2 (by omega) (by omega)
  have h3 : m.coeff 1 3 = 3 := by simpa using hcoeff 1 3 (by omega) (by omega)
  have hr : List.range 4 = [0, 1, 2, 3] := rfl
  have hg : getCoefficients m [0, 0, 0, 1] 1 = [0, 0, 3, 0] := by
    simp [getCoefficients, hr, h0, h1, h2, h3]
  have he : ∀ t : α, evaluate m [0, 0, 0, 1] t 1 = 3 * (t * t) := by
    intro t
    simp [evaluate, hg]
    ring
  have e1 : evaluate m [0, 0, 0, 1] (-1) 1 = 3 := by rw [he]; norm_num
  have e2 : evaluate m [0, 0, 0, 1] 0 1 = 0 := by rw [he]; norm_num
  have e3 : evaluate m [0, 0, 0, 1] 1 1 = 3 := by rw [he]; norm_num
  refine ⟨m, hm, hg, e1, e2, e3, ?_⟩
  have hlt : (-1 : α) < 1 := by norm_num
  have hmax : (0 : α) ≤ numericLimitsMax α := le_of_lt numericLimitsMax_pos
  have hlow : numericLimitsLowest α ≤ 0 := le_of_lt numericLimitsLowest_neg
  rw [findMinMax_eq, min_eq_left hlt.le, max_eq_right hlt.le, e1, e3]
  simp [rootCandidates, e2, hmax, hlow]

/-- Witness of C9: the table of size `kMaxN = 4` over the rationals. -/
theorem findMinMax_cubic_velocity_witness :
    4 ≤ 4 ∧ ∃ m : MatrixXd ℚ, computeBaseCoefficients 4 = some m ∧
      getCoefficients m [0, 0, 0, 1] 1 = [0, 0, 3, 0] ∧
      evaluate m [0, 0, 0, 1] (-1) 1 = 3 ∧
      evaluate m [0, 0, 0, 1] 0 1 = 0 ∧
      evaluate m [0, 0, 0, 1] 1 1 = 3 ∧
      findMinMax (evaluate m [0, 0, 0, 1]) (-1) 1 1 [Complexd.mk 0 0]
        = (true, MinMax.mk 0 3) :=
  ⟨le_refl 4, findMinMax_cubic_velocity 4 (le_refl 4)⟩

/-- Witness of C8: `p(t) = t` (coefficients `[0, 1]`), derivative 0, the
interval `[2, 5]` and no roots give `min = 2` and `max = 5`. -/
theorem findMinMax_endpoints_only_witness :
    ∃ m : MatrixXd ℚ, computeBaseCoefficients 2 = some m ∧
      (∀ r ∈ ([] : List (Complexd ℚ)),
        ¬ (r.imag = 0 ∧ min (2 : ℚ) 5 ≤ r.real ∧ r.real ≤ max (2 : ℚ) 5)) ∧
      min (evaluate m [0, 1] (min 2 5) 0) (evaluate m [0, 1] (max 2 5) 0)
        ≤ numericLimitsMax ℚ ∧
      numericLimitsLowest ℚ
        ≤ max (evaluate m [0, 1] (min 2 5) 0) (evaluate m [0, 1] (max 2 5) 0) ∧
      findMinMax (evaluate m [0, 1]) 2 5 0 [] = (true, MinMax.mk 2 5) := by
  obtain ⟨m, hm, _, _, hcoeff⟩ := @computeBaseCoefficients_spec ℚ _ 2 (by omega)
  have h0 : m.coeff 0 0 = 1 := by simpa using hcoeff 0 0 (by omega) (by omega)
  have h1 : m.coeff 0 1 = 1 := by simpa using hcoeff 0 1 (by omega) (by omega)
  have hr : List.range 2 = [0, 1] := rfl
  have he : ∀ t : ℚ, evaluate m [0, 1] t 0 = t := by
    intro t
    simp [evaluate, getCoefficients, hr, h0, h1]
  have hlo : min (2 : ℚ) 5 = 2 := by norm_num
  have hhi : max (2 : ℚ) 5 = 5 := by norm_num
  have hroots : ∀ r ∈ ([] : List (Complexd ℚ)),
      ¬ (r.imag = 0 ∧ min (2 : ℚ) 5 ≤ r.real ∧ r.real ≤ max (2 : ℚ) 5) := by
    intro r hr
    cases hr
  have hmin : min (evaluate m [0, 1] (min 2 5) 0) (evaluate m [0, 1] (max 2 5) 0)
      ≤ numericLimitsMax ℚ := by
    rw [he, he, hlo, hhi]
    norm_num [numericLimitsMax]
  have hmax : numericLimitsLowest ℚ
      ≤ max (evaluate m [0, 1] (min 2 5) 0) (evaluate m [0, 1] (max 2 5) 0) := by
    rw [he, he, hlo, hhi]
    norm_num [numericLimitsLowest, numericLimitsMax]
  refine ⟨m, hm, hroots, hmin, hmax, ?_⟩
  have h := findMinMax_endpoints_only (evaluate m [0, 1]) 2 5 0 [] hroots hmin hmax
  rw [he, he, hlo, hhi] at h
  rw [h]
  norm_num

/-- Counterexample to C8 as stated: for `p(t) = 2 t` (coefficients `[0, 2]`),
derivative 0, `t_1 = t_2 = 2^1023` and no roots, both endpoint evaluations are
`2^1024`, above `numeric_limits<double>::max()`, and the stored `min` is that
sentinel, not the smaller endpoint evaluation. -/
theorem findMinMax_endpoints_only_counterexample :
    ∃ m : MatrixXd ℚ, computeBaseCoefficients 2 = some m ∧
      (∀ r ∈ ([] : List (Complexd ℚ)),
        ¬ (r.imag = 0 ∧ min (2 ^ 1023 : ℚ) (2 ^ 1023) ≤ r.real ∧
          r.real ≤ max (2 ^ 1023 : ℚ) (2 ^ 1023))) ∧
      evaluate m [0, 2] (2 ^ 1023) 0 = 2 ^ 1024 ∧
      (findMinMax (evaluate m [0, 2]) (2 ^ 1023) (2 ^ 1023) 0 []).2.min
        = numericLimitsMax ℚ ∧
      (findMinMax (evaluate m [0, 2]) (2 ^ 1023) (2 ^ 1023) 0 []).2.min
        ≠ min (evaluate m [0, 2] (min (2 ^ 1023) (2 ^ 1023)) 0)
            (evaluate m [0, 2] (max (2 ^ 1023) (2 ^ 1023)) 0) := by
  obtain ⟨m, hm, _, _, hcoeff⟩ := @computeBaseCoefficients_spec ℚ _ 2 (by omega)
  have h0 : m.coeff 0 0 = 1 := by simpa using hcoeff 0 0 (by omega) (by omega)
  have h1 : m.coeff 0 1 = 1 := by simpa using hcoeff 0 1 (by omega) (by omega)
  have hr : List.range 2 = [0, 1] := rfl
  have he : ∀ t : ℚ, evaluate m [0, 2] t 0 = t * 2 := by
    intro t
    simp [evaluate, getCoefficients, hr, h0, h1]
  have hv : evaluate m [0, 2] (2 ^ 1023) 0 = 2 ^ 1024 := by
    rw [he]; norm_num
  have hlt : numericLimitsMax ℚ < 2 ^ 1024 := by
    norm_num [numericLimitsMax]
  have hres : (findMinMax (evaluate m [0, 2]) (2 ^ 1023) (2 ^ 1023) 0 []).2.min
      = numericLimitsMax ℚ := by
    rw [findMinMax_eq]
    simp only [rootCandidates, List.filter_nil, List.map_nil, List.foldl_nil, min_self,
      max_self, hv]
    rw [min_assoc, min_self, min_eq_left hlt.le]
  refine ⟨m, hm, ?_, hv, hres, ?_⟩
  · intro r hr
    cases hr
  · rw [hres, min_self, max_self, hv, min_self]
    exact ne_of_lt hlt

/-! ## True extrema on the interval -/

/-- Witness of C5: `p(t) = t` on `[2, 5]`, a solver that succeeds with the
single root 3. -/
theorem findMinMaxSolve_eq_findMinMax_witness :
    (fun _ : List ℤ => (true, [Complexd.mk (3 : ℤ) 0])) [1, 0] = (true, [Complexd.mk 3 0]) ∧
    findMinMaxSolve (fun _ => [1, 0]) (fun _ => (true, [Complexd.mk (3 : ℤ) 0]))
        (fun t _ => t) (2 : ℤ) 5 0 (MinMax.mk 7 (-7))
      = findMinMax (fun t _ => t) (2 : ℤ) 5 0 [Complexd.mk 3 0] :=
  ⟨rfl, findMinMaxSolve_eq_findMinMax (fun _ => [1, 0])
    (fun _ => (true, [Complexd.mk (3 : ℤ) 0])) (fun t _ => t) 2 5 0 (MinMax.mk 7 (-7))
    [Complexd.mk 3 0] rfl⟩

/-! ## Shape of the table -/

/-- C13: Operation A returns true for every input: `t_1` and `t_2` in either
order, every derivative order and every root sequence, the empty one
included. -/
theorem findMinMax_always_succeeds {α : Type} [LinearOrderedCommRing α]
    (evaluate : α → Nat → α) (t_1 t_2 : α) (derivative : Nat)
    (roots_of_derivative : List (Complexd α)) :
    (findMinMax evaluate t_1 t_2 derivative roots_of_derivative).1 = true ∧
      (findMinMax evaluate t_1 t_2 derivative []).1 = true := by
  constructor
  · rw [findMinMax_eq]
  · rw [findMinMax_eq]

/-- C15: for every `N >= 2`, every row `1 <= n < N` and every column
`n <= i < N`, the entry `(n, i)` of the table is `(order - DEG + i)` times the
entry `(n - 1, i)`, with `DEG = N - 1` and `order = DEG - (n - 1)`, that is
`(i - n + 1)` times the entry `(n - 1, i)`. -/
theorem computeBaseCoefficients_recurrence {α : Type} [LinearOrderedCommRing α]
    (N : Nat) (hN : 2 ≤ N) :
    ∃ m : MatrixXd α, computeBaseCoefficients N = some m ∧
      ∀ n i : Nat, 1 ≤ n → n < N → n ≤ i → i < N →
        m.coeff n i =
          (((((N : Int) - 1) - ((n : Int) - 1)) - ((N : Int) - 1) + (i : Int) : Int) : α)
            * m.coeff (n - 1) i ∧
        m.coeff n i = ((i : α) - (n : α) + 1) * m.coeff (n - 1) i := by
  obtain ⟨m, hm, _, _, hcoeff⟩ := @computeBaseCoefficients_spec α _ N (by omega)
  refine ⟨m, hm, ?_⟩
  intro n i hn1 hnN hni hiN
  obtain ⟨p, rfl⟩ : ∃ p, n = p + 1 := ⟨n - 1, by omega⟩
  have hrec : m.coeff (p + 1) i = ((i : α) - ((p + 1 : Nat) : α) + 1) * m.coeff (p + 1 - 1) i := by
    rw [hcoeff (p + 1) i hnN hiN, Nat.add_sub_cancel, hcoeff p i (by omega) hiN,
      Nat.descFactorial_succ, Nat.cast_mul, Nat.cast_sub (by omega)]
    push_cast
    ring
  refine ⟨?_, hrec⟩
  rw [hrec]
  congr 1
  push_cast
  ring

/-- Witness of C15: in the table of size 4 over the rationals the entry
`(2, 3)` is `(3 - 2 + 1)` times the entry `(1, 3)`. -/
theorem computeBaseCoefficients_recurrence_witness :
    2 ≤ 4 ∧ ∃ m : MatrixXd ℚ, computeBaseCoefficients 4 = some m ∧
      m.coeff 2 3 = ((3 : ℚ) - 2 + 1) * m.coeff 1 3 := by
  obtain ⟨m, hm, h⟩ := @computeBaseCoefficients_recurrence ℚ _ 4 (by decide)
  refine ⟨by decide, m, hm, ?_⟩
  have h23 := (h 2 3 (by decide) (by decide) (by decide) (by decide)).2
  simpa using h23

/-- C16: for every `N >= 1`, `computeBaseCoefficients(N)` returns its `N x N`
matrix, no access having failed; in every iteration it reaches, with
`1 <= n < N` and `DEG - order = n - 1 <= i < N`, the read of `(n - 1, i)` and
the write of `(n, i)` have their indices in `[0, N)` and succeed. -/
theorem computeBaseCoefficients_no_error {α : Type} [LinearOrderedCommRing α]
    (N : Nat) (hN : 1 ≤ N) :
    (∃ m : MatrixXd α, computeBaseCoefficients N = some m ∧ m.rows = N ∧ m.cols = N) ∧
      ∀ b : MatrixXd α, b.rows = N → b.cols = N →
        ∀ n i : Int, 1 ≤ n → n < N → n - 1 ≤ i → i < N →
          b.inRange (n - 1) i ∧ b.inRange n i ∧
          (b.get (n - 1) i).isSome = true ∧ ∀ v : α, (b.set n i v).isSome = true := by
  obtain ⟨m, hm, hr, hc, _⟩ := @computeBaseCoefficients_spec α _ N hN
  refine ⟨⟨m, hm, hr, hc⟩, ?_⟩
  intro b hbr hbc n i hn1 hnN hi1 hiN
  have h1 : b.inRange (n - 1) i := by
    unfold MatrixXd.inRange
    rw [hbr, hbc]
    omega
  have h2 : b.inRange n i := by
    unfold MatrixXd.inRange
    rw [hbr, hbc]
    omega
  refine ⟨h1, h2, ?_, ?_⟩
  · unfold MatrixXd.get
    rw [if_pos h1]
    rfl
  · intro v
    unfold MatrixXd.set
    rw [if_pos h2]
    rfl

/-- Witness of C16: the table of size 1, whose loops run no iteration, and
the table of size 3 are returned. -/
theorem computeBaseCoefficients_no_error_witness :
    (1 ≤ 1 ∧ ∃ m : MatrixXd ℤ, computeBaseCoefficients 1 = some m ∧ m.rows = 1 ∧ m.cols = 1) ∧
    (1 ≤ 3 ∧ ∃ m : MatrixXd ℤ, computeBaseCoefficients 3 = some m ∧ m.rows = 3 ∧ m.cols = 3) :=
  ⟨⟨le_refl 1, (@computeBaseCoefficients_no_error ℤ _ 1 (le_refl 1)).1⟩,
    ⟨by decide, (@computeBaseCoefficients_no_error ℤ _ 3 (by decide)).1⟩⟩

/-- C17: the entries do not depend on the table size: for `1 <= N <= M` and
all `n, i < N` the entry `(n, i)` of `computeBaseCoefficients(N)` is the entry
`(n, i)` of `computeBaseCoefficients(M)`, so the table built for `kMaxN` serves
every polynomial with fewer coefficients. -/
theorem computeBaseCoefficients_size_independent {α : Type} [LinearOrderedCommRing α]
    (N M : Nat) (hN : 1 ≤ N) (hNM : N ≤ M) :
    ∃ a b : MatrixXd α, computeBaseCoefficients N = some a ∧
      computeBaseCoefficients M = some b ∧
      (∀ n i : Nat, n < N → i < N →
        a.coeff n i = b.coeff n i ∧ a.get n i = b.get n i) ∧
      ∀ (c : List α) (t : α) (d : Nat), c.length ≤ N →
        getCoefficients a c d = getCoefficients b c d ∧ evaluate a c t d = evaluate b c t d := by
  obtain ⟨a, ha, har, hac, hacoeff⟩ := @computeBaseCoefficients_spec α _ N hN
  obtain ⟨b, hb, hbr, hbc, hbcoeff⟩ := @computeBaseCoefficients_spec α _ M (by omega)
  have hentry : ∀ n i : Nat, n < N → i < N → a.coeff n i = b.coeff n i := by
    intro n i hn hi
    rw [hacoeff n i hn hi, hbcoeff n i (by omega) (by omega)]
  have hcoefs : ∀ (c : List α) (d : Nat), c.length ≤ N →
      getCoefficients a c d = getCoefficients b c d := by
    intro c d hc
    apply List.ext_getElem
    · rw [getCoefficients_length, getCoefficients_length]
    · intro k h1 h2
      have e1 := getCoefficients_getD a c d k
      have e2 := getCoefficients_getD b c d k
      rw [List.getD_eq_getElem _ _ h1] at e1
      rw [List.getD_eq_getElem _ _ h2] at e2
      rw [e1, e2]
      by_cases h : k + d < c.length
      · rw [if_pos h, if_pos h, hentry d (k + d) (by omega) (by omega)]
      · rw [if_neg h, if_neg h]
  refine ⟨a, b, ha, hb, ?_, ?_⟩
  · intro n i hn hi
    refine ⟨hentry n i hn hi, ?_⟩
    unfold MatrixXd.get MatrixXd.inRange
    rw [if_pos (by rw [har, hac]; omega), if_pos (by rw [hbr, hbc]; omega)]
    simp [hentry n i hn hi]
  · intro c t d hc
    refine ⟨hcoefs c d hc, ?_⟩
    unfold evaluate
    rw [hcoefs c d hc]

/-- Witness of C17: the tables of sizes 2 and 4 over the rationals agree on the
entry `(1, 1)`, which is 1 in both. -/
theorem computeBaseCoefficients_size_independent_witness :
    1 ≤ 2 ∧ 2 ≤ 4 ∧ ∃ a b : MatrixXd ℚ, computeBaseCoefficients 2 = some a ∧
      computeBaseCoefficients 4 = some b ∧ a.coeff 1 1 = b.coeff 1 1 := by
  obtain ⟨a, b, ha, hb, h, _⟩ :=
    @computeBaseCoefficients_size_independent ℚ _ 2 4 (by decide) (by decide)
  exact ⟨by decide, by decide, a, b, ha, hb, (h 1 1 (by decide) (by decide)).1⟩

/-! ## The result over the candidates -/

end mav_trajectory_generation
